import Mathlib

/-!
Verification of the blast-radius Terraform dependency visualizer
(`blast_radius.py`): the dependency scanner `_extract_dependencies` /
`extract_refs`, the record extractor `parse_terraform`, the graph
assembler `generate_graph`, the JSON exporter `_graph_to_json`, and the
node color/shape/group tables.
-/

namespace BlastRadius

mutual

/-- Parsed HCL2 values, as produced by the external parser and walked by
`extract_refs`: strings, other scalars (modelled by one integer case),
sequences, and mappings.  Sequences and mappings are mutual inductives so
that all recursion below is structural. -/
inductive HValue where
  | str : String → HValue
  | num : Int → HValue
  | list : HList → HValue
  | dict : HDict → HValue

inductive HList where
  | nil : HList
  | cons : HValue → HList → HList

inductive HDict where
  | nil : HDict
  | cons : String → HValue → HDict → HDict

end

/-- Build an `HList` from a Lean list (convenience for concrete examples). -/
def HList.ofList : List HValue → HList
  | [] => .nil
  | v :: vs => .cons v (HList.ofList vs)

/-- Build an `HDict` from a Lean association list (convenience for examples). -/
def HDict.ofList : List (String × HValue) → HDict
  | [] => .nil
  | (k, v) :: kvs => .cons k v (HDict.ofList kvs)

/-- The characters removed by Python's `value.strip('${}')`:
`'$'`, `'\x7b'` and `'\x7d'`. -/
def isMark (c : Char) : Bool := c = '$' || c = '\x7b' || c = '\x7d'

/-- Python `value.strip('${}')`: remove all leading and trailing characters
drawn from the set `{'$', '\x7b', '\x7d'}`. -/
def stripMarks (s : String) : String :=
  ⟨((s.data.dropWhile isMark).reverse.dropWhile isMark).reverse⟩

/-- Python `s.startswith(p)` for a single literal, on the character lists. -/
def strStarts (p s : String) : Bool := p.data.isPrefixOf s.data

/-- The condition of the `elif` on line 112:
`value.startswith(('${', 'data.', 'module.'))`. -/
def startsAnyRef (s : String) : Bool :=
  strStarts "$\x7b" s || strStarts "data." s || strStarts "module." s

/-- The condition of the `if` on line 115:
`ref.startswith(('data.', 'module.'))`. -/
def startsDM (s : String) : Bool :=
  strStarts "data." s || strStarts "module." s

mutual

/-- `extract_refs(obj)` from `_extract_dependencies` (lines 106–121):
the dependencies appended while walking `obj`, in order.  A bare scalar
at the top of a call matches neither `isinstance` branch and contributes
nothing. -/
def extract_refs : HValue → List String
  | .str _ => []
  | .num _ => []
  | .list xs => refsOfList xs
  | .dict xs => refsOfDict xs

/-- The `for key, value in obj.items()` loop of `extract_refs`. -/
def refsOfDict : HDict → List String
  | .nil => []
  | .cons k v rest => refsOfEntry k v ++ refsOfDict rest

/-- The body of the loop for one `key, value` pair: the `elif` chain of
lines 109–118.  Rule (a): a `source` key with a string value is recorded
verbatim.  Rule (b): otherwise a string value starting with the
interpolation marker or a `data.`/`module.` prefix is stripped and, if the
stripped value starts with `data.`/`module.`, recorded.  Mapping or
sequence values are walked recursively. -/
def refsOfEntry (k : String) : HValue → List String
  | .str s =>
      if k = "source" then [s]
      else if startsAnyRef s then
        let ref := stripMarks s
        if startsDM ref then [ref] else []
      else []
  | .num _ => []
  | .list xs => refsOfList xs
  | .dict xs => refsOfDict xs

/-- The `for item in obj` loop of `extract_refs` on a sequence: each item
is passed back to `extract_refs` itself. -/
def refsOfList : HList → List String
  | .nil => []
  | .cons v rest => extract_refs v ++ refsOfList rest

end

/-- `_extract_dependencies(config)` (lines 102–124): the walked references,
deduplicated (`list(set(dependencies))`). -/
def _extract_dependencies (config : HValue) : List String :=
  (extract_refs config).dedup

example : extract_refs (.dict (HDict.ofList
    [("vpc_id", .str "aws_vpc.main.id")])) = [] := by rfl

example : extract_refs (.dict (HDict.ofList
    [("ami", .str "$\x7bdata.aws_ami.ubuntu\x7d")])) = ["data.aws_ami.ubuntu"] := by rfl

example : extract_refs (.dict (HDict.ofList
    [("source", .str "./modules/vpc")])) = ["./modules/vpc"] := by rfl

example : extract_refs (.dict (HDict.ofList
    [("source", .str "$\x7bmodule.vpc\x7d")])) = ["$\x7bmodule.vpc\x7d"] := by rfl

example : stripMarks "$\x7bmodule.x" = "module.x" := by rfl

example : stripMarks "data.a.b\x7d" = "data.a.b" := by rfl

mutual

/-- Modelled from the spec's order-independence wording for comparison with
`extract_refs`: the same walk with the two extraction rules considered in
the opposite order — rule (b) (prefix strings) checked before rule (a)
(`source` fields).  The source applies rule (a) first; this variant exists
only to compare the two orders. -/
def extract_refsSwap : HValue → List String
  | .str _ => []
  | .num _ => []
  | .list xs => refsOfListSwap xs
  | .dict xs => refsOfDictSwap xs

/-- The dictionary loop of `extract_refsSwap`. -/
def refsOfDictSwap : HDict → List String
  | .nil => []
  | .cons k v rest => refsOfEntrySwap k v ++ refsOfDictSwap rest

/-- One `key, value` pair under the swapped rule order: rule (b) first,
then rule (a). -/
def refsOfEntrySwap (k : String) : HValue → List String
  | .str s =>
      if startsAnyRef s then
        let ref := stripMarks s
        if startsDM ref then [ref] else []
      else if k = "source" then [s]
      else []
  | .num _ => []
  | .list xs => refsOfListSwap xs
  | .dict xs => refsOfDictSwap xs

/-- The sequence loop of `extract_refsSwap`. -/
def refsOfListSwap : HList → List String
  | .nil => []
  | .cons v rest => extract_refsSwap v ++ refsOfListSwap rest

end

mutual

/-- The string values of fields named `source` reachable by the walk of
`extract_refs` — exactly the strings rule (a) records. -/
def sourceValues : HValue → List String
  | .str _ => []
  | .num _ => []
  | .list xs => sourceValuesList xs
  | .dict xs => sourceValuesDict xs

/-- The dictionary loop of `sourceValues`. -/
def sourceValuesDict : HDict → List String
  | .nil => []
  | .cons k v rest => sourceValuesEntry k v ++ sourceValuesDict rest

/-- One `key, value` pair of `sourceValues`: a string under the key
`source` is collected; nested mappings and sequences are walked. -/
def sourceValuesEntry (k : String) : HValue → List String
  | .str s => if k = "source" then [s] else []
  | .num _ => []
  | .list xs => sourceValuesList xs
  | .dict xs => sourceValuesDict xs

/-- The sequence loop of `sourceValues`. -/
def sourceValuesList : HList → List String
  | .nil => []
  | .cons v rest => sourceValues v ++ sourceValuesList rest

end

/-- One extracted record: the per-name dictionary value built in
`parse_terraform` (lines 59–89).  `type` is absent (`none`) for module
records, which carry only `name`, `file`, `config`, `dependencies`. -/
structure Record where
  type : Option String
  name : String
  file : String
  config : HValue
  dependencies : List String

/-- The parsed content of one file, as returned by `hcl2.loads` and read by
`parse_terraform`: the `resource` blocks (type, then instances as
name–config pairs), the `data` blocks (same shape), and the `module`
blocks (name–config pairs). -/
structure ParsedFile where
  resourceBlocks : List (String × List (String × HValue))
  dataBlocks : List (String × List (String × HValue))
  moduleBlocks : List (String × HValue)

/-- One discovered `.tf` file: its path relative to the root, and its parse
result — `none` models a per-file parse exception, which line 91–93 catches
so the file is skipped with a warning. -/
structure TFFile where
  name : String
  parsed : Option ParsedFile

/-- The three record collections returned by `parse_terraform`
(lines 95–100), keyed by qualified name. -/
structure TerraformData where
  resources : List (String × Record)
  data_sources : List (String × Record)
  modules : List (String × Record)

/-- The `resource` extraction loop (lines 56–66): each instance is keyed
`f"{resource_type}.{resource_name}"`. -/
def resourceRecordsOfFile (f : TFFile) : List (String × Record) :=
  match f.parsed with
  | none => []
  | some p =>
      p.resourceBlocks.flatMap fun ti =>
        ti.2.map fun nc =>
          (ti.1 ++ "." ++ nc.1,
           { type := some ti.1, name := nc.1, file := f.name, config := nc.2,
             dependencies := _extract_dependencies nc.2 })

/-- The `data` extraction loop (lines 69–79): each instance is keyed
`f"data.{data_type}.{data_name}"`. -/
def dataRecordsOfFile (f : TFFile) : List (String × Record) :=
  match f.parsed with
  | none => []
  | some p =>
      p.dataBlocks.flatMap fun ti =>
        ti.2.map fun nc =>
          ("data." ++ ti.1 ++ "." ++ nc.1,
           { type := some ti.1, name := nc.1, file := f.name, config := nc.2,
             dependencies := _extract_dependencies nc.2 })

/-- The `module` extraction loop (lines 82–89): each module is keyed by the
bare `module_name`. -/
def moduleRecordsOfFile (f : TFFile) : List (String × Record) :=
  match f.parsed with
  | none => []
  | some p =>
      p.moduleBlocks.map fun nc =>
        (nc.1,
         { type := none, name := nc.1, file := f.name, config := nc.2,
           dependencies := _extract_dependencies nc.2 })

/-- The record collections accumulated over all files (lines 47–100). -/
def buildData (files : List TFFile) : TerraformData :=
  { resources := files.flatMap resourceRecordsOfFile
    data_sources := files.flatMap dataRecordsOfFile
    modules := files.flatMap moduleRecordsOfFile }

/-- The two fatal failures of `parse_terraform`: `FileNotFoundError`
(line 34, root missing) and `ValueError` (line 43, no `.tf` files). -/
inductive ParseError where
  | PathNotFound : ParseError
  | NoConfigFiles : ParseError
  deriving DecidableEq

/-- `parse_terraform(path)` (lines 30–100), over the results of the two
filesystem observations it makes: whether the root path exists, and the
list of `.tf` files found under it (`path.rglob`).  It raises
`PathNotFound` when the root is missing, `NoConfigFiles` when no `.tf`
file is found, and otherwise returns the record collections. -/
def parse_terraform (pathExists : Bool) (tfFiles : List TFFile) :
    Except ParseError TerraformData :=
  if pathExists = false then .error .PathNotFound
  else if tfFiles.isEmpty then .error .NoConfigFiles
  else .ok (buildData tfFiles)

/-- Node attributes stored by `generate_graph`.  Each field is optional:
`_graph_to_json` reads them with `attrs.get(key, default)`, and module
nodes carry no `resource_type`. -/
structure NodeAttrs where
  type : Option String
  resource_type : Option String
  name : Option String
  file : Option String

/-- A directed graph as assembled by `generate_graph`: labelled nodes and
(source, target) edges. -/
structure DiGraph where
  nodes : List (String × NodeAttrs)
  edges : List (String × String)

/-- The node-addition loops of `generate_graph` (lines 130–151): one node
per resource (type `resource`), data source (type `data`) and module
(type `module`); the module node's `name` attribute is the key itself. -/
def nodesOf (d : TerraformData) : List (String × NodeAttrs) :=
  d.resources.map (fun nr =>
    (nr.1, { type := some "resource", resource_type := nr.2.type,
             name := some nr.2.name, file := some nr.2.file }))
  ++ d.data_sources.map (fun nr =>
    (nr.1, { type := some "data", resource_type := nr.2.type,
             name := some nr.2.name, file := some nr.2.file }))
  ++ d.modules.map (fun nr =>
    (nr.1, { type := some "module", resource_type := none,
             name := some nr.1, file := some nr.2.file }))

/-- One record collection's edge loop (lines 154–167): for each dependency
of each record, add the edge `dep → record` when `dep` is already a node. -/
def edgesFrom (ids : List String) (recs : List (String × Record)) :
    List (String × String) :=
  recs.flatMap fun nr =>
    (nr.2.dependencies.filter (fun dep => decide (dep ∈ ids))).map
      (fun dep => (dep, nr.1))

/-- `generate_graph(data)` (lines 126–169): all nodes are added first, then
the dependency edges of resources, data sources and modules in turn. -/
def generate_graph (d : TerraformData) : DiGraph :=
  let ns := nodesOf d
  let ids := ns.map Prod.fst
  { nodes := ns
    edges := edgesFrom ids d.resources ++ edgesFrom ids d.data_sources
             ++ edgesFrom ids d.modules }

/-- `_get_node_color(node_type)` (lines 287–294). -/
def _get_node_color (node_type : String) : String :=
  if node_type = "resource" then "#4CAF50"
  else if node_type = "data" then "#2196F3"
  else if node_type = "module" then "#FF9800"
  else "#9E9E9E"

/-- `_get_node_shape(node_type)` (lines 296–303). -/
def _get_node_shape (node_type : String) : String :=
  if node_type = "resource" then "box"
  else if node_type = "data" then "ellipse"
  else if node_type = "module" then "diamond"
  else "box"

/-- `_get_node_group(node_type)` (lines 305–312). -/
def _get_node_group (node_type : String) : Nat :=
  if node_type = "resource" then 1
  else if node_type = "data" then 2
  else if node_type = "module" then 3
  else 0

/-- One exported node object (lines 265–272). -/
structure JsonNode where
  id : String
  name : String
  type : String
  resource_type : String
  file : String
  group : Nat
  deriving DecidableEq

/-- One exported link object (lines 276–280). -/
structure JsonLink where
  source : String
  target : String
  value : Nat
  deriving DecidableEq

/-- The exported document: a node list and a link list (lines 282–285). -/
structure GraphJson where
  nodes : List JsonNode
  links : List JsonLink

/-- `_graph_to_json(graph)` (lines 261–285): one node object per graph
node, reading each attribute with its `attrs.get` default, and one link
object per graph edge with `value` 1. -/
def _graph_to_json (g : DiGraph) : GraphJson :=
  { nodes := g.nodes.map fun na =>
      { id := na.1
        name := na.2.name.getD na.1
        type := na.2.type.getD "resource"
        resource_type := na.2.resource_type.getD ""
        file := na.2.file.getD ""
        group := _get_node_group (na.2.type.getD "resource") }
    links := g.edges.map fun e =>
      { source := e.1, target := e.2, value := 1 } }

/-- All records of a parse result, in node-insertion order: resources,
then data sources, then modules. -/
def allRecords (d : TerraformData) : List (String × Record) :=
  d.resources ++ d.data_sources ++ d.modules

/-- The qualified names of all records. -/
def allKeys (d : TerraformData) : List String :=
  (allRecords d).map Prod.fst

/-- Concatenation of `HList`s, used to state where a sequence element sits. -/
def HList.append : HList → HList → HList
  | .nil, ys => ys
  | .cons v xs, ys => .cons v (HList.append xs ys)

/-- The `aws_vpc.main` body of the spec's end-to-end example. -/
def vpcConfig : HValue :=
  .dict (HDict.ofList [("cidr_block", .str "10.0.0.0/16")])

/-- The `aws_subnet.main` body of the spec's end-to-end example: a bare
same-resource-type attribute reference with no marker and no
`data.`/`module.` prefix. -/
def subnetConfig : HValue :=
  .dict (HDict.ofList
    [("vpc_id", .str "aws_vpc.main.id"), ("cidr_block", .str "10.0.1.0/24")])

/-- One parsed file declaring the two example resources. -/
def exampleVpcFiles : List TFFile :=
  [{ name := "main.tf"
     parsed := some
       { resourceBlocks :=
           [("aws_vpc", [("main", vpcConfig)]),
            ("aws_subnet", [("main", subnetConfig)])]
         dataBlocks := []
         moduleBlocks := [] } }]

/-- A resource body referencing a data source through an interpolated
reference equal to the data source's qualified name. -/
def amiRefConfig : HValue :=
  .dict (HDict.ofList [("ami", .str "$\x7bdata.aws_ami.ubuntu\x7d")])

/-- One parsed file with a data source and a resource referencing it. -/
def amiFiles : List TFFile :=
  [{ name := "main.tf"
     parsed := some
       { resourceBlocks := [("aws_instance", [("web", amiRefConfig)])]
         dataBlocks := [("aws_ami", [("ubuntu", .dict .nil)])]
         moduleBlocks := [] } }]

/-- The record the parse of `amiFiles` builds for `aws_instance.web`. -/
def webRecord : Record :=
  { type := some "aws_instance", name := "web", file := "main.tf"
    config := amiRefConfig, dependencies := ["data.aws_ami.ubuntu"] }

/-- A hand-made record with no dependencies. -/
def exampleRecordA : Record :=
  { type := some "aws_vpc", name := "main", file := "main.tf"
    config := .dict .nil, dependencies := [] }

/-- A hand-made record with one resolvable and one dangling dependency. -/
def exampleRecordB : Record :=
  { type := some "aws_subnet", name := "main", file := "main.tf"
    config := .dict .nil, dependencies := ["aws_vpc.main", "aws_lost.ref"] }

/-- A hand-made record collection, as in the repository's graph test. -/
def exampleData : TerraformData :=
  { resources :=
      [("aws_vpc.main", exampleRecordA), ("aws_subnet.main", exampleRecordB)]
    data_sources := []
    modules := [] }

/-- One parsed file declaring a resource, a data source and a module, used
to exhibit the qualified names actually built. -/
def mixedFile : List TFFile :=
  [{ name := "main.tf"
     parsed := some
       { resourceBlocks := [("aws_vpc", [("main", .dict .nil)])]
         dataBlocks := [("aws_ami", [("ubuntu", .dict .nil)])]
         moduleBlocks := [("vpc", .dict .nil)] } }]

/-- One parsed file declaring only the module `net`. -/
def netFiles : List TFFile :=
  [{ name := "m.tf"
     parsed := some
       { resourceBlocks := [], dataBlocks := []
         moduleBlocks := [("net", .dict .nil)] } }]

/-- The record the parse of `netFiles` builds for the module `net`. -/
def netRecord : Record :=
  { type := none, name := "net", file := "m.tf"
    config := .dict .nil, dependencies := [] }

/-- The configuration body of the order-dependence counterexample: a
`source` field whose string value begins with the interpolation marker. -/
def markedSourceConfig : HValue :=
  .dict (.cons "source" (.str "$\x7bmodule.vpc\x7d") .nil)

/-- A one-node, one-edge graph for exercising the JSON exporter. -/
def exampleGraph : DiGraph :=
  { nodes := [("n", { type := some "module", resource_type := none,
                      name := some "n", file := some "f" })]
    edges := [("a", "b")] }

theorem mem_extract_dependencies {c : HValue} {s : String} :
    s ∈ _extract_dependencies c ↔ s ∈ extract_refs c := by
  simp [_extract_dependencies, List.mem_dedup]

theorem mem_edgesFrom {ids : List String} {recs : List (String × Record)}
    {u v : String} :
    (u, v) ∈ edgesFrom ids recs ↔
      ∃ r, (v, r) ∈ recs ∧ u ∈ r.dependencies ∧ u ∈ ids := by
  simp only [edgesFrom, List.mem_flatMap, List.mem_map, List.mem_filter,
    decide_eq_true_eq, Prod.mk.injEq]
  constructor
  · rintro ⟨⟨n, r⟩, hmem, dep, ⟨hdep, hid⟩, rfl, rfl⟩
    exact ⟨r, hmem, hdep, hid⟩
  · rintro ⟨r, hmem, hdep, hid⟩
    exact ⟨(v, r), hmem, u, ⟨hdep, hid⟩, rfl, rfl⟩

theorem nodesOf_map_fst (d : TerraformData) :
    (nodesOf d).map Prod.fst = allKeys d := by
  simp [nodesOf, allKeys, allRecords, Function.comp_def]

theorem generate_graph_nodes_fst (d : TerraformData) :
    (generate_graph d).nodes.map Prod.fst = allKeys d := by
  simp [generate_graph, nodesOf_map_fst]

theorem generate_graph_edges_eq (d : TerraformData) :
    (generate_graph d).edges =
      edgesFrom (allKeys d) d.resources ++ edgesFrom (allKeys d) d.data_sources
        ++ edgesFrom (allKeys d) d.modules := by
  simp [generate_graph, nodesOf_map_fst]

theorem mem_generate_graph_edges {d : TerraformData} {u v : String} :
    (u, v) ∈ (generate_graph d).edges ↔
      ∃ r, (v, r) ∈ allRecords d ∧ u ∈ r.dependencies ∧ u ∈ allKeys d := by
  rw [generate_graph_edges_eq]
  simp only [List.mem_append, mem_edgesFrom]
  constructor
  · rintro ((⟨r, hm, hd, hi⟩ | ⟨r, hm, hd, hi⟩) | ⟨r, hm, hd, hi⟩)
    · exact ⟨r, List.mem_append.mpr (Or.inl (List.mem_append.mpr (Or.inl hm))), hd, hi⟩
    · exact ⟨r, List.mem_append.mpr (Or.inl (List.mem_append.mpr (Or.inr hm))), hd, hi⟩
    · exact ⟨r, List.mem_append.mpr (Or.inr hm), hd, hi⟩
  · rintro ⟨r, hm, hd, hi⟩
    rcases List.mem_append.mp hm with h | h3
    · rcases List.mem_append.mp h with h1 | h2
      · exact Or.inl (Or.inl ⟨r, h1, hd, hi⟩)
      · exact Or.inl (Or.inr ⟨r, h2, hd, hi⟩)
    · exact Or.inr ⟨r, h3, hd, hi⟩

theorem mem_buildData_record {files : List TFFile} {n : String} {r : Record} :
    (n, r) ∈ allRecords (buildData files) →
      r.dependencies = _extract_dependencies r.config := by
  intro h
  simp only [allRecords, buildData, List.mem_append, List.mem_flatMap] at h
  rcases h with (⟨f, _, hr⟩ | ⟨f, _, hr⟩) | ⟨f, _, hr⟩
  · cases hp : f.parsed with
    | none => simp [resourceRecordsOfFile, hp] at hr
    | some p =>
        simp only [resourceRecordsOfFile, hp, List.mem_flatMap,
          List.mem_map, Prod.mk.injEq] at hr
        obtain ⟨ti, _, nc, _, _, hrec⟩ := hr
        subst hrec; rfl
  · cases hp : f.parsed with
    | none => simp [dataRecordsOfFile, hp] at hr
    | some p =>
        simp only [dataRecordsOfFile, hp, List.mem_flatMap,
          List.mem_map, Prod.mk.injEq] at hr
        obtain ⟨ti, _, nc, _, _, hrec⟩ := hr
        subst hrec; rfl
  · cases hp : f.parsed with
    | none => simp [moduleRecordsOfFile, hp] at hr
    | some p =>
        simp only [moduleRecordsOfFile, hp, List.mem_map, Prod.mk.injEq] at hr
        obtain ⟨nc, _, _, hrec⟩ := hr
        subst hrec; rfl

mutual

/-- Soundness of the walk on a value: every recorded dependency is a
`source`-field string or carries a `data.`/`module.` prefix. -/
theorem refs_source_or_dm (v : HValue) :
    ∀ d ∈ extract_refs v, d ∈ sourceValues v ∨ startsDM d = true := by
  cases v with
  | str s => intro d hd; simp [extract_refs] at hd
  | num n => intro d hd; simp [extract_refs] at hd
  | list xs => exact refsList_source_or_dm xs
  | dict xs => exact refsDict_source_or_dm xs

/-- Soundness of the walk on a mapping. -/
theorem refsDict_source_or_dm (xs : HDict) :
    ∀ d ∈ refsOfDict xs, d ∈ sourceValuesDict xs ∨ startsDM d = true := by
  cases xs with
  | nil => intro d hd; simp [refsOfDict] at hd
  | cons k v rest =>
      intro d hd
      rw [refsOfDict] at hd
      rcases List.mem_append.mp hd with h | h
      · rcases refsEntry_source_or_dm k v d h with h' | h'
        · exact Or.inl (List.mem_append.mpr (Or.inl h'))
        · exact Or.inr h'
      · rcases refsDict_source_or_dm rest d h with h' | h'
        · exact Or.inl (List.mem_append.mpr (Or.inr h'))
        · exact Or.inr h'

/-- Soundness of the walk on one `key, value` pair. -/
theorem refsEntry_source_or_dm (k : String) (v : HValue) :
    ∀ d ∈ refsOfEntry k v, d ∈ sourceValuesEntry k v ∨ startsDM d = true := by
  cases v with
  | str s =>
      intro d hd
      by_cases hk : k = "source"
      · simp only [refsOfEntry, if_pos hk, List.mem_singleton] at hd
        subst hd
        exact Or.inl (by simp [sourceValuesEntry, if_pos hk])
      · simp only [refsOfEntry, if_neg hk] at hd
        by_cases ha : startsAnyRef s
        · simp only [if_pos ha] at hd
          by_cases hdm : startsDM (stripMarks s)
          · simp only [if_pos hdm, List.mem_singleton] at hd
            subst hd
            exact Or.inr hdm
          · simp only [if_neg hdm, List.not_mem_nil] at hd
        · simp only [if_neg ha, List.not_mem_nil] at hd
  | num n => intro d hd; simp [refsOfEntry] at hd
  | list xs => exact refsList_source_or_dm xs
  | dict xs => exact refsDict_source_or_dm xs

/-- Soundness of the walk on a sequence. -/
theorem refsList_source_or_dm (xs : HList) :
    ∀ d ∈ refsOfList xs, d ∈ sourceValuesList xs ∨ startsDM d = true := by
  cases xs with
  | nil => intro d hd; simp [refsOfList] at hd
  | cons v rest =>
      intro d hd
      rw [refsOfList] at hd
      rcases List.mem_append.mp hd with h | h
      · rcases refs_source_or_dm v d h with h' | h'
        · exact Or.inl (List.mem_append.mpr (Or.inl h'))
        · exact Or.inr h'
      · rcases refsList_source_or_dm rest d h with h' | h'
        · exact Or.inl (List.mem_append.mpr (Or.inr h'))
        · exact Or.inr h'

end

theorem dropWhile_head?_not {α : Type} (p : α → Bool) (l : List α) {c : α}
    (h : (l.dropWhile p).head? = some c) : p c = false := by
  have hm := List.head?_dropWhile_not p l
  rw [h] at hm
  exact hm

theorem isPrefixOf_head {a : Char} {p l : List Char}
    (h : List.isPrefixOf (a :: p) l = true) : l.head? = some a := by
  cases l with
  | nil => simp at h
  | cons b t =>
      rw [List.isPrefixOf_cons₂, Bool.and_eq_true] at h
      have hb : a = b := eq_of_beq h.1
      simp [hb]

theorem stripMarks_data (s : String) :
    (stripMarks s).data =
      ((s.data.dropWhile isMark).reverse.dropWhile isMark).reverse := rfl

theorem stripMarks_decomposition (s : String) :
    s.data = s.data.takeWhile isMark ++ (stripMarks s).data
        ++ ((s.data.dropWhile isMark).reverse.takeWhile isMark).reverse := by
  conv_lhs => rw [← List.takeWhile_append_dropWhile isMark s.data]
  rw [List.append_assoc]
  congr 1
  rw [stripMarks_data]
  conv_lhs => rw [← List.reverse_reverse (s.data.dropWhile isMark),
    ← List.takeWhile_append_dropWhile isMark (s.data.dropWhile isMark).reverse]
  rw [List.reverse_append]

theorem stripMarks_head_not_mark (s : String) {c : Char}
    (h : (stripMarks s).data.head? = some c) : isMark c = false := by
  rw [stripMarks_data, List.head?_reverse] at h
  obtain ⟨u, hu⟩ := List.dropWhile_suffix (l := (s.data.dropWhile isMark).reverse) isMark
  have h2 : (s.data.dropWhile isMark).head? = some c := by
    rw [← List.getLast?_reverse, ← hu, List.getLast?_append, h]
    rfl
  exact dropWhile_head?_not isMark s.data h2

theorem stripMarks_last_not_mark (s : String) {c : Char}
    (h : (stripMarks s).data.getLast? = some c) : isMark c = false := by
  rw [stripMarks_data, List.getLast?_reverse] at h
  exact dropWhile_head?_not isMark _ h

theorem stripMarks_length_lt {s : String} {c : Char}
    (hc : s.data.head? = some c) (hm : isMark c = true) :
    (stripMarks s).data.length < s.data.length := by
  cases hd : s.data with
  | nil => rw [hd] at hc; simp at hc
  | cons b t =>
      rw [hd, List.head?_cons, Option.some.injEq] at hc
      subst hc
      have h1 : (stripMarks s).data.length ≤ (s.data.dropWhile isMark).length := by
        rw [stripMarks_data, List.length_reverse]
        calc ((s.data.dropWhile isMark).reverse.dropWhile isMark).length
            ≤ (s.data.dropWhile isMark).reverse.length :=
              (List.dropWhile_suffix _).length_le
          _ = (s.data.dropWhile isMark).length := List.length_reverse _
      have h2 : (s.data.dropWhile isMark).length ≤ t.length := by
        rw [hd, List.dropWhile_cons_of_pos hm]
        exact (List.dropWhile_suffix _).length_le
      have h3 : t.length < (b :: t).length := by
        rw [List.length_cons]
        exact Nat.lt_succ_self _
      exact Nat.lt_of_le_of_lt (Nat.le_trans h1 h2) h3

theorem stripMarks_ne_of_interp {s : String} (h : strStarts "$\x7b" s = true) :
    stripMarks s ≠ s := by
  intro he
  have hc : s.data.head? = some '$' := isPrefixOf_head h
  have hlt := stripMarks_length_lt hc (by rfl)
  rw [he] at hlt
  exact Nat.lt_irrefl _ hlt

theorem startsDM_of_anyRef {s : String}
    (ha : startsAnyRef s = true) (hne : strStarts "$\x7b" s = false) :
    startsDM s = true := by
  simp only [startsAnyRef, Bool.or_eq_true, hne, Bool.false_eq_true,
    false_or] at ha
  simp only [startsDM, Bool.or_eq_true]
  exact ha

mutual

/-- The two rule orders agree on any value whose `source`-field strings are
either unmarked or fixed by stripping. -/
theorem refs_eq_swap (v : HValue)
    (h : ∀ s ∈ sourceValues v, startsAnyRef s = false ∨ stripMarks s = s) :
    extract_refs v = extract_refsSwap v := by
  cases v with
  | str s => rfl
  | num n => rfl
  | list xs => exact refsList_eq_swap xs h
  | dict xs => exact refsDict_eq_swap xs h

/-- Order agreement on a mapping. -/
theorem refsDict_eq_swap (xs : HDict)
    (h : ∀ s ∈ sourceValuesDict xs, startsAnyRef s = false ∨ stripMarks s = s) :
    refsOfDict xs = refsOfDictSwap xs := by
  cases xs with
  | nil => rfl
  | cons k v rest =>
      rw [refsOfDict, refsOfDictSwap,
        refsEntry_eq_swap k v (fun s hs => h s (List.mem_append.mpr (Or.inl hs))),
        refsDict_eq_swap rest (fun s hs => h s (List.mem_append.mpr (Or.inr hs)))]

/-- Order agreement on one `key, value` pair. -/
theorem refsEntry_eq_swap (k : String) (v : HValue)
    (h : ∀ s ∈ sourceValuesEntry k v, startsAnyRef s = false ∨ stripMarks s = s) :
    refsOfEntry k v = refsOfEntrySwap k v := by
  cases v with
  | num n => rfl
  | list xs => exact refsList_eq_swap xs h
  | dict xs => exact refsDict_eq_swap xs h
  | str s =>
      by_cases hk : k = "source"
      · have hs : startsAnyRef s = false ∨ stripMarks s = s :=
          h s (by simp [sourceValuesEntry, if_pos hk])
        by_cases ha : startsAnyRef s
        · have heq : stripMarks s = s := by
            rcases hs with hs | hs
            · rw [hs] at ha; exact absurd ha (by simp)
            · exact hs
          have hniv : strStarts "$\x7b" s = false := by
            by_contra hx
            exact stripMarks_ne_of_interp (Bool.of_not_eq_false hx) heq
          have hdm : startsDM s = true := startsDM_of_anyRef ha hniv
          simp [refsOfEntry, refsOfEntrySwap, hk, ha, heq, hdm]
        · simp only [refsOfEntry, refsOfEntrySwap, if_pos hk, if_neg ha]
      · by_cases ha : startsAnyRef s
        · simp only [refsOfEntry, refsOfEntrySwap, if_neg hk, if_pos ha]
        · simp only [refsOfEntry, refsOfEntrySwap, if_neg hk, if_neg ha]

/-- Order agreement on a sequence. -/
theorem refsList_eq_swap (xs : HList)
    (h : ∀ s ∈ sourceValuesList xs, startsAnyRef s = false ∨ stripMarks s = s) :
    refsOfList xs = refsOfListSwap xs := by
  cases xs with
  | nil => rfl
  | cons v rest =>
      rw [refsOfList, refsOfListSwap,
        refs_eq_swap v (fun s hs => h s (List.mem_append.mpr (Or.inl hs))),
        refsList_eq_swap rest (fun s hs => h s (List.mem_append.mpr (Or.inr hs)))]

end

theorem refsOfList_append (xs ys : HList) :
    refsOfList (HList.append xs ys) = refsOfList xs ++ refsOfList ys := by
  cases xs with
  | nil => rfl
  | cons v rest =>
      show extract_refs v ++ refsOfList (HList.append rest ys)
          = (extract_refs v ++ refsOfList rest) ++ refsOfList ys
      rw [refsOfList_append rest ys, List.append_assoc]

/-- C1: for every parsed record collection, if record B's configuration
yields dependency A under the scanner and A is the qualified name of an
existing record, then graph assembly makes both A and B nodes and adds the
edge A → B, directed from the dependency to the dependent. -/
theorem referenced_record_gives_edge (files : List TFFile) (A B : String)
    (rB : Record) (hB : (B, rB) ∈ allRecords (buildData files))
    (hdep : A ∈ _extract_dependencies rB.config)
    (hA : A ∈ allKeys (buildData files)) :
    A ∈ (generate_graph (buildData files)).nodes.map Prod.fst ∧
    B ∈ (generate_graph (buildData files)).nodes.map Prod.fst ∧
    (A, B) ∈ (generate_graph (buildData files)).edges := by
  have hdeps := mem_buildData_record hB
  refine ⟨?_, ?_, ?_⟩
  · rw [generate_graph_nodes_fst]; exact hA
  · rw [generate_graph_nodes_fst]
    exact List.mem_map_of_mem Prod.fst hB
  · exact mem_generate_graph_edges.mpr ⟨rB, hB, by rw [hdeps]; exact hdep, hA⟩

/-- Witness for C1: a resource referencing a data source by its qualified
name produces exactly that edge. -/
theorem referenced_record_gives_edge_witness :
    "data.aws_ami.ubuntu" ∈
        (generate_graph (buildData amiFiles)).nodes.map Prod.fst ∧
    "aws_instance.web" ∈
        (generate_graph (buildData amiFiles)).nodes.map Prod.fst ∧
    ("data.aws_ami.ubuntu", "aws_instance.web") ∈
        (generate_graph (buildData amiFiles)).edges :=
  referenced_record_gives_edge amiFiles "data.aws_ami.ubuntu"
    "aws_instance.web" webRecord (List.mem_cons_self _ _) (by decide) (by decide)

/-- C2: the assembled graph's nodes are exactly the record qualified names;
every edge points from a name that is a node to a record that lists it as a
dependency; a dangling dependency produces neither an edge nor a node. -/
theorem graph_nodes_edges_exact (d : TerraformData) :
    ((generate_graph d).nodes.map Prod.fst = allKeys d) ∧
    (∀ u v, (u, v) ∈ (generate_graph d).edges →
        u ∈ allKeys d ∧ ∃ r, (v, r) ∈ allRecords d ∧ u ∈ r.dependencies) ∧
    (∀ u, u ∉ allKeys d →
        (∀ v, (u, v) ∉ (generate_graph d).edges) ∧
        u ∉ (generate_graph d).nodes.map Prod.fst) := by
  refine ⟨generate_graph_nodes_fst d, ?_, ?_⟩
  · intro u v h
    obtain ⟨r, hm, hd, hi⟩ := mem_generate_graph_edges.mp h
    exact ⟨hi, r, hm, hd⟩
  · intro u hu
    constructor
    · intro v h
      obtain ⟨r, hm, hd, hi⟩ := mem_generate_graph_edges.mp h
      exact absurd hi hu
    · rw [generate_graph_nodes_fst]
      exact hu

/-- Witness for C2 at a hand-made collection with a dangling reference. -/
theorem graph_nodes_edges_exact_witness :
    ((generate_graph exampleData).nodes.map Prod.fst = allKeys exampleData) ∧
    ("aws_lost.ref", "aws_subnet.main") ∉ (generate_graph exampleData).edges ∧
    "aws_lost.ref" ∉ (generate_graph exampleData).nodes.map Prod.fst :=
  ⟨(graph_nodes_edges_exact exampleData).1,
   ((graph_nodes_edges_exact exampleData).2.2 "aws_lost.ref"
      (by decide)).1 "aws_subnet.main",
   ((graph_nodes_edges_exact exampleData).2.2 "aws_lost.ref" (by decide)).2⟩

/-- C3 counterexample: the mixed file yields the resource key
`aws_vpc.main` (no kind prefix before the type) and the module key `vpc`
(no `module.` prefix), against the claimed `<kind-prefix>.<type>.<name>`
and `module.<name>` forms; only the data-source key carries its kind
prefix. -/
theorem record_key_counterexample :
    (buildData mixedFile).resources.map Prod.fst = ["aws_vpc.main"] ∧
    (buildData mixedFile).data_sources.map Prod.fst = ["data.aws_ami.ubuntu"] ∧
    (buildData mixedFile).modules.map Prod.fst = ["vpc"] ∧
    strStarts "module." "vpc" = false ∧
    strStarts "resource." "aws_vpc.main" = false :=
  ⟨rfl, rfl, rfl, rfl, rfl⟩

/-- C3 amended: every resource record is keyed `<type>.<name>`, every
data-source record `data.<type>.<name>`, and every module record by the
bare module name. -/
theorem record_key_shapes (files : List TFFile) :
    (∀ n r, (n, r) ∈ (buildData files).resources →
        ∃ rt rn, r.type = some rt ∧ r.name = rn ∧ n = rt ++ "." ++ rn) ∧
    (∀ n r, (n, r) ∈ (buildData files).data_sources →
        ∃ dt dn, r.type = some dt ∧ r.name = dn ∧
          n = "data." ++ dt ++ "." ++ dn) ∧
    (∀ n r, (n, r) ∈ (buildData files).modules →
        r.type = none ∧ n = r.name) := by
  refine ⟨?_, ?_, ?_⟩ <;> intro n r h <;>
    simp only [buildData, List.mem_flatMap] at h <;> obtain ⟨f, _, hr⟩ := h
  · cases hp : f.parsed with
    | none => simp [resourceRecordsOfFile, hp] at hr
    | some p =>
        simp only [resourceRecordsOfFile, hp, List.mem_flatMap,
          List.mem_map, Prod.mk.injEq] at hr
        obtain ⟨ti, _, nc, _, hn, hrec⟩ := hr
        subst hrec
        exact ⟨ti.1, nc.1, rfl, rfl, hn.symm⟩
  · cases hp : f.parsed with
    | none => simp [dataRecordsOfFile, hp] at hr
    | some p =>
        simp only [dataRecordsOfFile, hp, List.mem_flatMap,
          List.mem_map, Prod.mk.injEq] at hr
        obtain ⟨ti, _, nc, _, hn, hrec⟩ := hr
        subst hrec
        exact ⟨ti.1, nc.1, rfl, rfl, hn.symm⟩
  · cases hp : f.parsed with
    | none => simp [moduleRecordsOfFile, hp] at hr
    | some p =>
        simp only [moduleRecordsOfFile, hp, List.mem_map,
          Prod.mk.injEq] at hr
        obtain ⟨nc, _, hn, hrec⟩ := hr
        subst hrec
        exact ⟨rfl, hn.symm⟩

/-- Witness for the C3 amended claim at the module `net`. -/
theorem record_key_shapes_witness :
    netRecord.type = none ∧ "net" = netRecord.name :=
  (record_key_shapes netFiles).2.2 "net" netRecord (List.mem_cons_self _ _)

/-- C4: `parse_terraform` fails with `PathNotFound` exactly when the root
is missing, fails with `NoConfigFiles` exactly when the root exists but no
tracked file was found, and in either case returns no record collection. -/
theorem parse_terraform_errors (pathExists : Bool) (files : List TFFile) :
    (parse_terraform pathExists files = .error .PathNotFound ↔
        pathExists = false) ∧
    (parse_terraform pathExists files = .error .NoConfigFiles ↔
        pathExists = true ∧ files = []) ∧
    (∀ e, parse_terraform pathExists files = .error e →
        ∀ d, parse_terraform pathExists files ≠ .ok d) := by
  cases pathExists with
  | false => simp [parse_terraform]
  | true => cases files <;> simp [parse_terraform]

/-- Witness for C4 at the two failing inputs. -/
theorem parse_terraform_errors_witness :
    parse_terraform false [] = .error .PathNotFound ∧
    parse_terraform true [] = .error .NoConfigFiles :=
  ⟨(parse_terraform_errors false []).1.mpr rfl,
   (parse_terraform_errors true []).2.1.mpr ⟨rfl, rfl⟩⟩

/-- C5: the scanner records only `source`-field strings and strings whose
stripped value carries a `data.`/`module.` prefix; a non-`source` string
value with no marker and no such prefix is never recorded; in particular
the bare reference `aws_vpc.main.id` yields no dependency and the
two-resource example assembles with no edge. -/
theorem scanner_captures_only_recognized :
    (∀ v d, d ∈ extract_refs v →
        d ∈ sourceValues v ∨ startsDM d = true) ∧
    (∀ k s, k ≠ "source" → startsAnyRef s = false →
        refsOfEntry k (.str s) = []) ∧
    _extract_dependencies subnetConfig = [] ∧
    (generate_graph (buildData exampleVpcFiles)).edges = [] := by
  refine ⟨fun v d h => refs_source_or_dm v d h, fun k s hk ha => ?_, rfl, rfl⟩
  simp [refsOfEntry, hk, ha]

/-- Witness for C5 at a `source` field and at the bare reference. -/
theorem scanner_captures_only_recognized_witness :
    ("./modules/vpc" ∈
        sourceValues (.dict (.cons "source" (.str "./modules/vpc") .nil)) ∨
      startsDM "./modules/vpc" = true) ∧
    refsOfEntry "vpc_id" (.str "aws_vpc.main.id") = [] :=
  ⟨scanner_captures_only_recognized.1
      (.dict (.cons "source" (.str "./modules/vpc") .nil)) "./modules/vpc"
      (by decide),
   scanner_captures_only_recognized.2.1 "vpc_id" "aws_vpc.main.id"
      (by decide) (by decide)⟩

/-- C6: the JSON export has one node object per graph node and one link
object per graph edge, every link carries value 1, and each exported node
keeps the id, type and group of the graph node at the same position. -/
theorem graph_to_json_preserves (g : DiGraph) :
    ((_graph_to_json g).nodes.length = g.nodes.length) ∧
    ((_graph_to_json g).links.length = g.edges.length) ∧
    (∀ l ∈ (_graph_to_json g).links, l.value = 1) ∧
    (∀ i : Nat, ((_graph_to_json g).nodes[i]?).map
          (fun jn => (jn.id, jn.type, jn.group))
        = (g.nodes[i]?).map (fun na =>
            (na.1, na.2.type.getD "resource",
             _get_node_group (na.2.type.getD "resource")))) := by
  refine ⟨by simp [_graph_to_json], by simp [_graph_to_json], ?_, ?_⟩
  · intro l hl
    simp only [_graph_to_json, List.mem_map] at hl
    obtain ⟨e, _, rfl⟩ := hl
    rfl
  · intro i
    rw [show (_graph_to_json g).nodes = g.nodes.map _ from rfl,
      List.getElem?_map]
    cases g.nodes[i]? with
    | none => rfl
    | some na => rfl

/-- Witness for C6 at a one-node, one-edge graph. -/
theorem graph_to_json_preserves_witness :
    ((_graph_to_json exampleGraph).nodes.length = exampleGraph.nodes.length) ∧
    ((_graph_to_json exampleGraph).links.length = exampleGraph.edges.length) ∧
    ({ source := "a", target := "b", value := 1 } : JsonLink).value = 1 :=
  ⟨(graph_to_json_preserves exampleGraph).1,
   (graph_to_json_preserves exampleGraph).2.1,
   (graph_to_json_preserves exampleGraph).2.2.1
      { source := "a", target := "b", value := 1 } (by decide)⟩

/-- C7: the three styling tables are total: the three known type strings
map to their fixed color, shape and group, and every other string maps to
the defaults gray, box and 0. -/
theorem node_style_total :
    _get_node_color "resource" = "#4CAF50" ∧
    _get_node_shape "resource" = "box" ∧
    _get_node_group "resource" = 1 ∧
    _get_node_color "data" = "#2196F3" ∧
    _get_node_shape "data" = "ellipse" ∧
    _get_node_group "data" = 2 ∧
    _get_node_color "module" = "#FF9800" ∧
    _get_node_shape "module" = "diamond" ∧
    _get_node_group "module" = 3 ∧
    ∀ t : String, t ≠ "resource" → t ≠ "data" → t ≠ "module" →
      _get_node_color t = "#9E9E9E" ∧ _get_node_shape t = "box" ∧
      _get_node_group t = 0 := by
  refine ⟨rfl, rfl, rfl, rfl, rfl, rfl, rfl, rfl, rfl, ?_⟩
  intro t h1 h2 h3
  exact ⟨by simp [_get_node_color, h1, h2, h3],
    by simp [_get_node_shape, h1, h2, h3],
    by simp [_get_node_group, h1, h2, h3]⟩

/-- Witness for C7 at an unknown type string. -/
theorem node_style_total_witness :
    _get_node_color "output" = "#9E9E9E" ∧ _get_node_shape "output" = "box" ∧
    _get_node_group "output" = 0 :=
  node_style_total.2.2.2.2.2.2.2.2.2 "output" (by decide) (by decide)
    (by decide)

/-- C8 counterexample: on `markedSourceConfig` the code order records the
verbatim `source` value while the swapped rule order records the stripped
value, so the two orders do not yield the same deduplicated dependency
set: the claim fails at this input. -/
theorem rule_order_counterexample :
    _extract_dependencies markedSourceConfig = ["$\x7bmodule.vpc\x7d"] ∧
    (extract_refsSwap markedSourceConfig).dedup = ["module.vpc"] ∧
    "module.vpc" ∉ _extract_dependencies markedSourceConfig ∧
    "module.vpc" ∈ (extract_refsSwap markedSourceConfig).dedup :=
  ⟨rfl, rfl, by decide, by decide⟩

/-- C8 amended: the code applies the `source` rule before the prefix rule —
a `source` field's string value is always recorded verbatim — and the two
rule orders agree on every body in which each `source`-field string either
starts with none of the recognized markers or is unchanged by marker
stripping. -/
theorem rule_order_fixed_and_agreement :
    (∀ s, refsOfEntry "source" (.str s) = [s]) ∧
    (∀ v : HValue,
      (∀ s ∈ sourceValues v, startsAnyRef s = false ∨ stripMarks s = s) →
      extract_refs v = extract_refsSwap v) :=
  ⟨fun s => by simp [refsOfEntry], fun v h => refs_eq_swap v h⟩

/-- Witness for the C8 amended claim at an unmarked `source` value. -/
theorem rule_order_fixed_and_agreement_witness :
    extract_refs (.dict (.cons "source" (.str "./modules/net") .nil)) =
      extract_refsSwap (.dict (.cons "source" (.str "./modules/net") .nil)) :=
  rule_order_fixed_and_agreement.2
    (.dict (.cons "source" (.str "./modules/net") .nil)) (by decide)

/-- C9: a string that occurs directly as a sequence element is never
recorded, even if it begins with the interpolation marker or a reference
prefix: a bare string passed to the walk contributes nothing, and deleting
a string element does not change the scan of the sequence. -/
theorem list_element_string_ignored (s : String) (xs ys : HList) :
    extract_refs (.str s) = [] ∧
    extract_refs (.list (HList.append xs (.cons (.str s) ys)))
      = extract_refs (.list (HList.append xs ys)) := by
  refine ⟨rfl, ?_⟩
  show refsOfList (HList.append xs (.cons (.str s) ys))
      = refsOfList (HList.append xs ys)
  rw [refsOfList_append, refsOfList_append]
  rfl

/-- C10: for any value beginning with the interpolation marker or a
reference prefix, stripping removes all leading and trailing marker
characters, not one balanced wrapper: the original splits as a marker-only
margin, the stripped value — itself neither starting nor ending in a
marker — and a marker-only margin; `data.a.b\x7d` is recorded as
`data.a.b` and the unbalanced `$\x7bmodule.x` as `module.x`. -/
theorem strip_removes_all_margins (s : String) (h : startsAnyRef s = true) :
    (∃ p q, s.data = p ++ (stripMarks s).data ++ q ∧
        p.all isMark = true ∧ q.all isMark = true ∧
        (∀ c, (stripMarks s).data.head? = some c → isMark c = false) ∧
        (∀ c, (stripMarks s).data.getLast? = some c → isMark c = false)) ∧
    extract_refs (.dict (.cons "img" (.str "data.a.b\x7d") .nil))
      = ["data.a.b"] ∧
    extract_refs (.dict (.cons "img" (.str "$\x7bmodule.x") .nil))
      = ["module.x"] := by
  refine ⟨⟨s.data.takeWhile isMark,
    ((s.data.dropWhile isMark).reverse.takeWhile isMark).reverse,
    stripMarks_decomposition s, ?_, ?_,
    fun c hc => stripMarks_head_not_mark s hc,
    fun c hc => stripMarks_last_not_mark s hc⟩, rfl, rfl⟩
  · exact List.all_eq_true.mpr fun x hx => List.mem_takeWhile_imp hx
  · exact List.all_eq_true.mpr fun x hx =>
      List.mem_takeWhile_imp (List.mem_reverse.mp hx)

/-- Witness for C10 at the unbalanced marker example. -/
theorem strip_removes_all_margins_witness :
    startsAnyRef "$\x7bmodule.x" = true ∧
    extract_refs (.dict (.cons "img" (.str "$\x7bmodule.x") .nil))
      = ["module.x"] :=
  ⟨rfl, (strip_removes_all_margins "$\x7bmodule.x" rfl).2.2⟩

end BlastRadius
